import Mathlib

/-!
Shallow embedding of the `Store` model (src/models/store.js) and the mail
sender (src/unnamed/part_000) of whimsicalpulp/testing-deploy-node, together
with proofs checking the natural-language specification against the code.
-/

namespace StoreApp

/-- Modelled from the spec: ASCII lowercasing used by the external `slugs`
package (its source is not part of this repository); the spec describes the
transform as "lowercase, trim, replace runs of non-alphanumeric characters
with a single dash, strip leading/trailing dashes". -/
def lowerChar (c : Char) : Char :=
  match c with
  | 'A' => 'a' | 'B' => 'b' | 'C' => 'c' | 'D' => 'd' | 'E' => 'e'
  | 'F' => 'f' | 'G' => 'g' | 'H' => 'h' | 'I' => 'i' | 'J' => 'j'
  | 'K' => 'k' | 'L' => 'l' | 'M' => 'm' | 'N' => 'n' | 'O' => 'o'
  | 'P' => 'p' | 'Q' => 'q' | 'R' => 'r' | 'S' => 's' | 'T' => 't'
  | 'U' => 'u' | 'V' => 'v' | 'W' => 'w' | 'X' => 'x' | 'Y' => 'y'
  | 'Z' => 'z'
  | _ => c

/-- Replace each maximal run of non-alphanumeric characters by a single dash,
dropping trailing separator runs entirely (dashes are only emitted in front
of a later kept character). -/
def slugChars : List Char → List Char
  | [] => []
  | c :: cs =>
    let rest := slugChars cs
    if c.isAlphanum then c :: rest
    else
      match rest with
      | [] => []
      | d :: _ => if d = '-' then rest else '-' :: rest

/-- Modelled from the spec: the `slugs` npm package used at
src/models/store.js line 67 (`this.slug = slug(this.name)`); its source is
not part of this repository.  Per the spec: lowercase, trim, replace runs of
non-alphanumeric characters with a single dash, strip leading/trailing
dashes. -/
def slugify (s : String) : String :=
  ⟨(slugChars (s.data.map lowerChar)).dropWhile (· = '-')⟩

/-- `dropStart pat l` returns `some rest` when `l = pat ++ rest`, otherwise
`none` (literal prefix matching, used to model the anchored regex). -/
def dropStart : List Char → List Char → Option (List Char)
  | [], t => some t
  | _, [] => none
  | b :: bs, c :: cs => if b = c then dropStart bs cs else none

/-- The collision regex built at src/models/store.js line 69:
`^(base)((-[0-9]*$)?)$` with the `i` flag.  It accepts the base itself, or
the base followed by a dash and zero or more ASCII digits, comparing
case-insensitively. -/
def slugRegexMatch (base s : String) : Bool :=
  match dropStart (base.data.map lowerChar) (s.data.map lowerChar) with
  | none => false
  | some [] => true
  | some (c :: ds) => c = '-' && ds.all Char.isDigit

/-- The pattern as the spec sentence states it: `^(base)((-[0-9]+)?)$`
case-insensitively — the base slug itself or the base slug followed by a
dash and ONE or more digits. -/
def slugSpecPattern (base s : String) : Bool :=
  let b := base.data.map lowerChar
  let t := s.data.map lowerChar
  t = b || ((b ++ ['-']).isPrefixOf t &&
            (t.drop (b.length + 1) ≠ [] && (t.drop (b.length + 1)).all Char.isDigit))

/-- The amended pattern, following the amended spec words: the base slug
itself or the base slug followed by a dash and zero or more digits,
case-insensitively. -/
def slugAmendedPattern (base s : String) : Bool :=
  let b := base.data.map lowerChar
  let t := s.data.map lowerChar
  t = b || ((b ++ ['-']).isPrefixOf t && (t.drop (b.length + 1)).all Char.isDigit)

/-- The Store document of src/models/store.js (fields relevant to the
verified behavior; `id` stands for Mongo's `_id`, `created` for the `created`
date, `author` for the `User` reference). -/
structure Store where
  id : Nat
  name : String
  slug : String
  description : String
  tags : List String
  created : Nat
  photo : Option String
  author : Nat
  deriving DecidableEq, Repr

/-- A Review document as used by the `$lookup`/virtual at
src/models/store.js: a `store` back-reference and a numeric `rating`. -/
structure Review where
  id : Nat
  store : Nat
  rating : ℚ
  deriving DecidableEq, Repr

/-- The query `this.constructor.find({ slug: slugRegEx })` at
src/models/store.js line 70: all stores of the collection (the store being
saved is NOT excluded) whose slug matches the regex. -/
def storesWithSlug (base : String) (db : List Store) : List Store :=
  db.filter (fun t => slugRegexMatch base t.slug)

/-- The pre-save hook of src/models/store.js lines 61–76.  `modified`
mirrors `this.isModified('name')`; `db` is the state of the collection the
`find` runs against. -/
def preSave (modified : Bool) (s : Store) (db : List Store) : Store :=
  if !modified then s
  else
    let base := slugify s.name
    let found := storesWithSlug base db
    if found.length ≠ 0 then
      { s with slug := base ++ "-" ++ toString (found.length + 1) }
    else
      { s with slug := base }

/-- One full save against the collection: run the pre-save hook, then insert
the store (replacing the stored document with the same `_id`, appending a
new document otherwise). -/
def applySave (db : List Store) (s : Store) (modified : Bool) : List Store :=
  let s' := preSave modified s db
  if db.any (fun t => t.id = s.id) then
    db.map (fun t => if t.id = s.id then s' else t)
  else
    db ++ [s']

/-- Stable insertion of `x` into a list sorted descending by `key`:
`x` goes in front of the first element with a strictly smaller key.  This
models the `$sort: { field: -1 }` stages of the two pipelines. -/
def insertDesc {α β : Type} [LinearOrder β] (key : α → β) (x : α) : List α → List α
  | [] => [x]
  | y :: ys => if key y < key x then x :: y :: ys else y :: insertDesc key x ys

/-- Sort a list descending by `key` (stable insertion sort). -/
def sortDesc {α β : Type} [LinearOrder β] (key : α → β) : List α → List α
  | [] => []
  | x :: xs => insertDesc key x (sortDesc key xs)

/-- Distinct elements of a list, keeping first occurrences in order (the
group keys produced by a `$group` stage). -/
def distincts : List String → List String
  | [] => []
  | t :: ts => t :: (distincts ts).filter (fun u => u ≠ t)

/-- `getTagsList` of src/models/store.js lines 78–84:
`$unwind: '$tags'`, `$group: { _id: '$tags', count: { $sum: 1 } }`,
`$sort: { count: -1 }`.  Each group is a `(tag, count)` pair. -/
def getTagsList (stores : List Store) : List (String × Nat) :=
  let rows := stores.flatMap (fun s => s.tags)
  sortDesc (fun p => p.2) ((distincts rows).map (fun t => (t, rows.count t)))

/-- The number of Stores whose `tags` list mentions `t` (what the spec
sentence "the number of Stores referencing that tag" denotes). -/
def storesReferencing (t : String) (stores : List Store) : Nat :=
  (stores.filter (fun s => t ∈ s.tags)).length

/-- The number of occurrences of tag `t` over all unwound rows (what the
`$group`'s `$sum: 1` actually counts). -/
def occCount (t : String) (stores : List Store) : Nat :=
  (stores.flatMap (fun s => s.tags)).count t

/-- Arithmetic mean of a list of ratings, as `$avg` computes it on a
non-empty list. -/
def ratingAvg (l : List ℚ) : ℚ := l.sum / (l.length : ℚ)

/-- The shape produced by the `$project` stage of `getTopStores`
(src/models/store.js lines 94–101); `_id` is kept by `$project` by
default. -/
structure TopStoreEntry where
  id : Nat
  photo : Option String
  name : String
  reviews : List Review
  slug : String
  averageRating : ℚ
  deriving DecidableEq, Repr

/-- The `$lookup` of reviews for one store (`localField: '_id'`,
`foreignField: 'store'`). -/
def reviewsOf (reviews : List Review) (s : Store) : List Review :=
  reviews.filter (fun r => r.store = s.id)

/-- `'reviews.1': { $exists: true }` — index 1 exists in the joined list. -/
def hasSecondReview (l : List Review) : Bool :=
  match l with
  | _ :: _ :: _ => true
  | _ => false

/-- The `$project` stage applied to one matched store. -/
def topProject (reviews : List Review) (s : Store) : TopStoreEntry :=
  { id := s.id
    photo := s.photo
    name := s.name
    reviews := reviewsOf reviews s
    slug := s.slug
    averageRating := ratingAvg ((reviewsOf reviews s).map (fun r => r.rating)) }

/-- `getTopStores` of src/models/store.js lines 86–107: `$lookup` reviews,
`$match` stores with a second review, `$project` with `averageRating =
$avg reviews.rating`, `$sort: { averageRating: -1 }`, `$limit: 10`. -/
def getTopStores (stores : List Store) (reviews : List Review) : List TopStoreEntry :=
  let matched := stores.filter (fun s => hasSecondReview (reviewsOf reviews s))
  let projected := matched.map (topProject reviews)
  (sortDesc (fun e => e.averageRating) projected).take 10

/-- A Store as handed back by a read path: the document together with the
`reviews` virtual populated by the autopopulate hook
(src/models/store.js lines 109–121). -/
structure PopulatedStore where
  store : Store
  reviews : List Review
  deriving DecidableEq, Repr

/-- Attach the related reviews to a fetched store (the `autopopulate`
pre-find hook: `this.populate('reviews')`). -/
def autopopulate (reviews : List Review) (s : Store) : PopulatedStore :=
  { store := s, reviews := reviewsOf reviews s }

/-- A `find` over the Store collection: every matching document is returned
with its reviews populated (the `pre('find', autopopulate)` hook). -/
def findStores (p : Store → Bool) (db : List Store) (reviews : List Review) :
    List PopulatedStore :=
  (db.filter p).map (autopopulate reviews)

/-- A `findOne` over the Store collection: the first matching document, with
its reviews populated (the `pre('findOne', autopopulate)` hook). -/
def findOneStore (p : Store → Bool) (db : List Store) (reviews : List Review) :
    Option PopulatedStore :=
  (db.filter p).head?.map (autopopulate reviews)

/-- The caller-supplied options of `exports.send` in src/unnamed/part_000:
a template `filename`, the recipient user, and a `subject` (the remaining
template variables are consumed only by the renderer, abstracted below). -/
structure MailSendOptions where
  filename : String
  userEmail : String
  subject : String
  deriving DecidableEq, Repr

/-- The `mailOptions` record handed to `transport.sendMail`. -/
structure MailOptions where
  fromAddress : String
  toAddress : String
  subject : String
  html : String
  text : String
  deriving DecidableEq, Repr

/-- `generateHTML` of src/unnamed/part_000: render the pug template for
`filename` with the options, then inline styles with juice.  The external
renderers are passed in as functions (their code is not part of this
repository). -/
def generateHTML (renderFile : String → MailSendOptions → String)
    (juiceInline : String → String)
    (filename : String) (options : MailSendOptions) : String :=
  juiceInline (renderFile filename options)

/-- `exports.send` of src/unnamed/part_000 lines 35–48: build the mail from
the options; the `from` address is the fixed literal
`Bill Schupp <noreply@bill.com>`, `to` is `options.user.email`, `subject` is
`options.subject`, `html` is the rendered template and `text` its
plain-text derivation. -/
def send (renderFile : String → MailSendOptions → String)
    (juiceInline : String → String)
    (htmlToText : String → String)
    (options : MailSendOptions) : MailOptions :=
  let html := generateHTML renderFile juiceInline options.filename options
  let text := htmlToText html
  { fromAddress := "Bill Schupp <noreply@bill.com>"
    toAddress := options.userEmail
    subject := options.subject
    html := html
    text := text }

/-- A character a finished slug may consist of besides dashes: alphanumeric
and fixed under lowercasing. -/
def slugChar (c : Char) : Bool := c.isAlphanum && lowerChar c = c

/-- Well-formed slug bodies: every character is a `slugChar` or a dash, and
every dash is immediately followed by a `slugChar`; the last character, if
any, is a `slugChar`. -/
def isSlugList : List Char → Bool
  | [] => true
  | [c] => slugChar c
  | c :: d :: rest => (slugChar c || (c = '-' && slugChar d)) && isSlugList (d :: rest)

/-- Fixture constructor for concrete Store documents. -/
def mkStore (i : Nat) (n sl : String) (tg : List String) : Store :=
  { id := i, name := n, slug := sl, description := "", tags := tg
    created := 0, photo := none, author := 0 }

/-- Sequential save scenario: three stores named "foo" are created, then the
second is renamed to "bar", leaving slugs foo, bar, foo-3 in the collection. -/
def exSeqDb4 : List Store :=
  applySave
    (applySave
      (applySave
        (applySave [] (mkStore 1 "foo" "" []) true)
        (mkStore 2 "foo" "" []) true)
      (mkStore 3 "foo" "" []) true)
    (mkStore 2 "bar" "foo-2" []) true

/-- A fourth store named "foo" saved into that collection. -/
def exStore4 : Store := mkStore 4 "foo" "" []

/-- The third store as it sits in `exSeqDb4` after its save. -/
def exSavedStore3 : Store := mkStore 3 "foo" "foo-3" []

/-- An existing store whose slug does not match the base pattern "foo". -/
def exStoreOther : Store := mkStore 7 "Existing" "bar" []

/-- A new store named "Foo". -/
def exStoreNew : Store := mkStore 8 "Foo" "" []

/-- A store that is already persisted with slug "foo" and is being saved
again with its name modified. -/
def exStoreSelf : Store := mkStore 1 "Foo" "foo" []

/-- Fixture for the two-names-one-base scenario. -/
def exStoreCE1 : Store := mkStore 11 "Clean Eating" "" []

/-- A different name with the same slugified base. -/
def exStoreCE2 : Store := mkStore 12 "Clean Eating!" "" []

/-- A store whose non-empty name has no alphanumeric characters. -/
def exStoreBang : Store := mkStore 13 "!!!" "" []

/-- Tag fixtures for the getTagsList example. -/
def exStoreTagsAB : Store := mkStore 21 "x" "" ["a", "b"]

/-- Second tag fixture. -/
def exStoreTagsB : Store := mkStore 22 "y" "" ["b"]

/-- A store listing the same tag twice. -/
def exStoreTagsAA : Store := mkStore 23 "z" "" ["a", "a"]

/-- Store X with reviews rated 4 and 5 (average 4.5). -/
def exStoreX : Store :=
  { id := 31, name := "X", slug := "x", description := "", tags := []
    created := 0, photo := some "x.jpg", author := 1 }

/-- Store Y with reviews rated 3, 3, 3 (average 3). -/
def exStoreY : Store :=
  { id := 32, name := "Y", slug := "y", description := "", tags := []
    created := 0, photo := none, author := 1 }

/-- Store Z with a single review. -/
def exStoreZ : Store :=
  { id := 33, name := "Z", slug := "z", description := "", tags := []
    created := 0, photo := none, author := 1 }

/-- The reviews collection for the top-stores example. -/
def exReviews : List Review :=
  [⟨101, 31, 4⟩, ⟨102, 31, 5⟩, ⟨103, 32, 3⟩, ⟨104, 32, 3⟩, ⟨105, 32, 3⟩,
   ⟨106, 33, 5⟩]

theorem dropStart_self (l : List Char) : dropStart l l = some [] := by
  induction l with
  | nil => rfl
  | cons c cs ih => simp [dropStart, ih]

theorem dropStart_eq_some_iff (b : List Char) :
    ∀ (t r : List Char), dropStart b t = some r ↔ t = b ++ r := by
  induction b with
  | nil =>
    intro t r
    simp [dropStart]
  | cons x bs ih =>
    intro t r
    cases t with
    | nil => simp [dropStart]
    | cons c cs =>
      by_cases hx : x = c
      · subst hx
        simp [dropStart, ih]
      · simp only [dropStart, if_neg hx, List.cons_append]
        constructor
        · intro h; cases h
        · intro h
          rw [List.cons.injEq] at h
          exact absurd h.1.symm hx

theorem slugRegexMatch_self (b : String) : slugRegexMatch b b = true := by
  simp [slugRegexMatch, dropStart_self]

theorem isPrefixOf_eq_true_iff (p l : List Char) :
    p.isPrefixOf l = true ↔ ∃ r, l = p ++ r := by
  rw [List.isPrefixOf_iff_prefix]
  constructor
  · rintro ⟨r, hr⟩; exact ⟨r, hr.symm⟩
  · rintro ⟨r, hr⟩; exact ⟨r, hr.symm⟩

theorem slugRegexMatch_eq_amended (base s : String) :
    slugRegexMatch base s = slugAmendedPattern base s := by
  unfold slugRegexMatch slugAmendedPattern
  cases h : dropStart (base.data.map lowerChar) (s.data.map lowerChar) with
  | none =>
    have hne : ∀ r, s.data.map lowerChar ≠ base.data.map lowerChar ++ r := by
      intro r hr
      rw [← dropStart_eq_some_iff] at hr
      rw [h] at hr
      cases hr
    have h1 : ¬ (s.data.map lowerChar = base.data.map lowerChar) := by
      intro he
      exact hne [] (by simpa using he)
    have h2 : ((base.data.map lowerChar ++ ['-']).isPrefixOf
        (s.data.map lowerChar)) = false := by
      rw [← Bool.not_eq_true, isPrefixOf_eq_true_iff]
      rintro ⟨r, hr⟩
      exact hne ('-' :: r) (by simpa [List.append_assoc] using hr)
    simp [h1, h2]
  | some rest =>
    have hsome : s.data.map lowerChar = base.data.map lowerChar ++ rest :=
      (dropStart_eq_some_iff _ _ _).mp h
    cases rest with
    | nil => simp [hsome]
    | cons c ds =>
      have hneq : ¬ (s.data.map lowerChar = base.data.map lowerChar) := by
        rw [hsome]
        intro he
        have hlen := congrArg List.length he
        simp [List.length_append] at hlen
      by_cases hc : c = '-'
      · subst hc
        have hpre : ((base.data.map lowerChar ++ ['-']).isPrefixOf
            (s.data.map lowerChar)) = true := by
          rw [isPrefixOf_eq_true_iff]
          exact ⟨ds, by rw [hsome]; simp⟩
        have hdrop : (s.data.map lowerChar).drop
            ((base.data.map lowerChar).length + 1) = ds := by
          rw [hsome]
          have hre : base.data.map lowerChar ++ '-' :: ds =
              (base.data.map lowerChar ++ ['-']) ++ ds := by simp
          rw [hre]
          have hl : (base.data.map lowerChar ++ ['-']).length =
              (base.data.map lowerChar).length + 1 := by simp
          rw [← hl, List.drop_left]
        have hlen2 : (base.data.map lowerChar).length = base.length := by
          rw [List.length_map]
          rfl
        rw [hlen2] at hdrop
        simp [hneq, hpre, hdrop]
      · have hpre : ((base.data.map lowerChar ++ ['-']).isPrefixOf
            (s.data.map lowerChar)) = false := by
          rw [← Bool.not_eq_true, isPrefixOf_eq_true_iff]
          rintro ⟨r, hr⟩
          rw [hsome, List.append_assoc] at hr
          have hcancel := List.append_cancel_left hr
          rw [List.singleton_append, List.cons.injEq] at hcancel
          exact hc hcancel.1
        simp [hneq, hpre, hc]

/-- C6: if the Store's name was not modified, the pre-save hook is a
complete no-op: the document (its slug field included) is returned
unchanged, regardless of what other fields changed. -/
theorem preSave_name_unmodified (s : Store) (db : List Store) :
    preSave false s db = s := by
  simp [preSave]

/-- C10: `send` always builds the mail with the `from` address fixed to the
constant `Bill Schupp <noreply@bill.com>`, independent of the caller's
options; only the recipient, subject and the rendered bodies vary with the
input. -/
theorem send_from_constant
    (renderFile : String → MailSendOptions → String)
    (juiceInline : String → String) (htmlToText : String → String)
    (options : MailSendOptions) :
    (send renderFile juiceInline htmlToText options).fromAddress =
        "Bill Schupp <noreply@bill.com>" ∧
    (send renderFile juiceInline htmlToText options).toAddress =
        options.userEmail ∧
    (send renderFile juiceInline htmlToText options).subject =
        options.subject ∧
    (send renderFile juiceInline htmlToText options).html =
        generateHTML renderFile juiceInline options.filename options ∧
    (send renderFile juiceInline htmlToText options).text =
        htmlToText (generateHTML renderFile juiceInline options.filename options) :=
  ⟨rfl, rfl, rfl, rfl, rfl⟩

/-- C3 counterexample: the slug-collision query does NOT exclude the store
being saved (saving the already-persisted store 1 counts its own stored
document, yielding slug "foo-2" instead of "foo"), and the code's regex
`^(base)((-[0-9]*$)?)$` also accepts "foo-" (dash followed by ZERO digits),
which the claimed pattern `^(base)((-[0-9]+)?)$` rejects. -/
theorem slug_query_cex :
    storesWithSlug "foo" [exStoreSelf] = [exStoreSelf] ∧
    (preSave true exStoreSelf [exStoreSelf]).slug = "foo-2" ∧
    slugRegexMatch "foo" "foo-" = true ∧
    slugSpecPattern "foo" "foo-" = false := by decide

/-- C3 (amended): the collision query returns exactly the existing Stores —
including the Store being saved, if its stored slug matches — whose slug
matches `^(base)((-[0-9]*)?)$` case-insensitively, i.e. the base slug or
the base slug followed by a dash and zero or more digits. -/
theorem storesWithSlug_amended (base : String) (db : List Store) :
    storesWithSlug base db =
      db.filter (fun t => slugAmendedPattern base t.slug) := by
  unfold storesWithSlug
  exact List.filter_congr (fun t _ => slugRegexMatch_eq_amended base t.slug)

theorem preSave_slug_eq (s : Store) (db : List Store) :
    (preSave true s db).slug =
      if (storesWithSlug (slugify s.name) db).length = 0 then slugify s.name
      else slugify s.name ++ "-" ++
        toString ((storesWithSlug (slugify s.name) db).length + 1) := by
  by_cases h : (storesWithSlug (slugify s.name) db).length = 0
  · simp [preSave, h]
  · simp [preSave, h]

/-- C4: with zero collision-query matches the slug is the base slug
unchanged; with `n > 0` matches it is `base-(n+1)`; and for two stores whose
distinct names slugify to the same base, saved sequentially into a
collection with no matching slugs, the first gets the base, the second gets
`base-2`, and the two slugs are distinct. -/
theorem preSave_slug_rule (s1 s2 s3 : Store) (db db3 : List Store) (n : Nat)
    (hne : s1.name ≠ s2.name)
    (hbase : slugify s1.name = slugify s2.name)
    (hclean : ∀ t ∈ db, slugRegexMatch (slugify s1.name) t.slug = false)
    (hn : (storesWithSlug (slugify s3.name) db3).length = n) :
    (preSave true s3 db3).slug =
      (if n = 0 then slugify s3.name
       else slugify s3.name ++ "-" ++ toString (n + 1)) ∧
    (preSave true s1 db).slug = slugify s1.name ∧
    (preSave true s2 (db ++ [preSave true s1 db])).slug =
      slugify s1.name ++ "-2" ∧
    (preSave true s1 db).slug ≠
      (preSave true s2 (db ++ [preSave true s1 db])).slug := by
  have hdbnil : storesWithSlug (slugify s1.name) db = [] := by
    unfold storesWithSlug
    rw [List.filter_eq_nil_iff]
    intro t ht
    simp [hclean t ht]
  have hB : (preSave true s1 db).slug = slugify s1.name := by
    rw [preSave_slug_eq, hdbnil]
    rfl
  have hA : (preSave true s3 db3).slug =
      (if n = 0 then slugify s3.name
       else slugify s3.name ++ "-" ++ toString (n + 1)) := by
    rw [preSave_slug_eq, hn]
  have hC : (preSave true s2 (db ++ [preSave true s1 db])).slug =
      slugify s1.name ++ "-2" := by
    have hquery : storesWithSlug (slugify s2.name)
        (db ++ [preSave true s1 db]) = [preSave true s1 db] := by
      unfold storesWithSlug
      rw [List.filter_append]
      have h1 : db.filter
          (fun t => slugRegexMatch (slugify s2.name) t.slug) = [] := by
        rw [List.filter_eq_nil_iff]
        intro t ht
        rw [← hbase]
        simp [hclean t ht]
      have h2 : [preSave true s1 db].filter
          (fun t => slugRegexMatch (slugify s2.name) t.slug) =
          [preSave true s1 db] := by
        have hm : slugRegexMatch (slugify s2.name)
            (preSave true s1 db).slug = true := by
          rw [hB, ← hbase]
          exact slugRegexMatch_self _
        simp [List.filter, hm]
      rw [h1, h2, List.nil_append]
    rw [preSave_slug_eq, hquery, ← hbase, String.append_assoc]
    rw [if_neg (by simp : ¬([preSave true s1 db].length = 0))]
    simp only [List.length_singleton]
    have hd2 : ("-" : String) ++ toString (1 + 1 : Nat) = "-2" := by decide
    rw [hd2]
  refine ⟨hA, hB, hC, ?_⟩
  rw [hB, hC]
  intro he
  have hlen := congrArg String.length he
  rw [String.length_append] at hlen
  have h2 : ("-2" : String).length = 2 := rfl
  omega

/-- Witness for C4: "Clean Eating" and "Clean Eating!" both slugify to
"clean-eating"; saved in sequence into an empty collection the first gets
slug "clean-eating" and the second "clean-eating-2". -/
theorem preSave_slug_rule_witness :
    (preSave true exStoreCE1 []).slug =
      (if (0 : Nat) = 0 then slugify exStoreCE1.name
       else slugify exStoreCE1.name ++ "-" ++ toString ((0 : Nat) + 1)) ∧
    (preSave true exStoreCE1 []).slug = slugify exStoreCE1.name ∧
    (preSave true exStoreCE2 ([] ++ [preSave true exStoreCE1 []])).slug =
      slugify exStoreCE1.name ++ "-2" ∧
    (preSave true exStoreCE1 []).slug ≠
      (preSave true exStoreCE2 ([] ++ [preSave true exStoreCE1 []])).slug :=
  preSave_slug_rule exStoreCE1 exStoreCE2 exStoreCE1 [] [] 0
    (by decide) (by decide) (by simp) (by decide)

/-- C1 counterexample: a purely sequential history of saves (create "foo"
three times, rename the second store to "bar") leaves slugs foo, bar, foo-3;
the next save of a store named "foo" counts 2 matches and assigns foo-3,
which equals the slug of the distinct existing store 3. -/
theorem sequential_slug_collision_cex :
    (preSave true exStore4 exSeqDb4).slug = "foo-3" ∧
    exSavedStore3 ∈ exSeqDb4 ∧
    exSavedStore3.slug = "foo-3" ∧
    exSavedStore3.id ≠ exStore4.id := by decide

/-- C1 (amended): the slug computed by the pre-save hook is distinct from
every existing Store's slug whenever the collision query returns zero
matches; when matches exist, the assigned `base-(N+1)` can coincide with
another Store's slug even under purely sequential saves. -/
theorem preSave_slug_fresh_of_no_match (s : Store) (db : List Store)
    (h : storesWithSlug (slugify s.name) db = []) :
    ∀ t ∈ db, t.slug ≠ (preSave true s db).slug := by
  intro t ht heq
  have hslug : (preSave true s db).slug = slugify s.name := by
    simp [preSave, h]
  rw [hslug] at heq
  have hm : slugRegexMatch (slugify s.name) t.slug = true := by
    rw [heq]
    exact slugRegexMatch_self _
  have hmem : t ∈ storesWithSlug (slugify s.name) db := by
    unfold storesWithSlug
    rw [List.mem_filter]
    exact ⟨ht, hm⟩
  rw [h] at hmem
  cases hmem

/-- Witness for C1 (amended): saving "Foo" into a collection holding only a
store slugged "bar" finds no match, and the computed slug "foo" differs from
"bar". -/
theorem preSave_slug_fresh_of_no_match_witness :
    exStoreOther.slug ≠ (preSave true exStoreNew [exStoreOther]).slug :=
  preSave_slug_fresh_of_no_match exStoreNew [exStoreOther] (by decide)
    exStoreOther (by decide)

/-- C8: both read paths (`find` and `findOne`) hand back every fetched
Store with its associated Reviews — those whose back-reference equals the
Store's id — attached in its `reviews` field; no caller opt-in is modelled,
the population is unconditional. -/
theorem read_paths_populate_reviews :
    (∀ (p : Store → Bool) (db : List Store) (reviews : List Review)
        (ps : PopulatedStore), ps ∈ findStores p db reviews →
          ps.reviews = reviewsOf reviews ps.store ∧ ps.store ∈ db ∧
          p ps.store = true) ∧
    (∀ (p : Store → Bool) (db : List Store) (reviews : List Review)
        (s : Store), s ∈ db → p s = true →
          autopopulate reviews s ∈ findStores p db reviews) ∧
    (∀ (p : Store → Bool) (db : List Store) (reviews : List Review)
        (ps : PopulatedStore), findOneStore p db reviews = some ps →
          ps.reviews = reviewsOf reviews ps.store ∧ ps.store ∈ db ∧
          p ps.store = true) := by
  refine ⟨?_, ?_, ?_⟩
  · intro p db reviews ps hps
    unfold findStores at hps
    rw [List.mem_map] at hps
    obtain ⟨s, hs, hmap⟩ := hps
    rw [List.mem_filter] at hs
    subst hmap
    exact ⟨rfl, hs.1, hs.2⟩
  · intro p db reviews s hs hp
    unfold findStores
    rw [List.mem_map]
    exact ⟨s, List.mem_filter.mpr ⟨hs, hp⟩, rfl⟩
  · intro p db reviews ps h
    unfold findOneStore at h
    cases hf : db.filter p with
    | nil =>
      rw [hf] at h
      cases h
    | cons a as =>
      rw [hf] at h
      have h' : autopopulate reviews a = ps := by
        simpa using h
      have ha : a ∈ db.filter p := by
        rw [hf]
        exact List.mem_cons_self a as
      rw [List.mem_filter] at ha
      rw [← h']
      exact ⟨rfl, ha.1, ha.2⟩

/-- Witness for C8: fetching store X (id 31) by `find` and by `findOne`
returns it with its two reviews attached. -/
theorem read_paths_populate_reviews_witness :
    (autopopulate exReviews exStoreX).reviews =
      reviewsOf exReviews (autopopulate exReviews exStoreX).store ∧
    autopopulate exReviews exStoreX ∈
      findStores (fun s => s.id == 31) [exStoreX] exReviews ∧
    (autopopulate exReviews exStoreX).store ∈ [exStoreX] := by
  have hmem := read_paths_populate_reviews.2.1 (fun s => s.id == 31)
    [exStoreX] exReviews exStoreX (by decide) (by decide)
  have hpop := (read_paths_populate_reviews.1 (fun s => s.id == 31)
    [exStoreX] exReviews (autopopulate exReviews exStoreX) hmem).1
  have hone := (read_paths_populate_reviews.2.2 (fun s => s.id == 31)
    [exStoreX] exReviews (autopopulate exReviews exStoreX) (by decide)).2.1
  exact ⟨hpop, hmem, hone⟩

theorem isAlphanum_lowerChar (c : Char) :
    (lowerChar c).isAlphanum = c.isAlphanum := by
  unfold lowerChar
  split <;> rfl

theorem dropWhile_dash_slugChars_ne_nil (cs : List Char)
    (h : ∃ c ∈ cs, c.isAlphanum = true) :
    (slugChars cs).dropWhile (· = '-') ≠ [] := by
  induction cs with
  | nil =>
    obtain ⟨c, hc, _⟩ := h
    cases hc
  | cons c cs ih =>
    by_cases hc : c.isAlphanum = true
    · have hcd : ¬ (c = '-') := by
        intro he
        subst he
        exact absurd hc (by decide)
      simp [slugChars, hc, List.dropWhile, hcd]
    · obtain ⟨x, hx, hxa⟩ := h
      have hx' : x ∈ cs := by
        cases hx with
        | head => exact absurd hxa hc
        | tail _ hmem => exact hmem
      have ih' := ih ⟨x, hx', hxa⟩
      cases hrest : slugChars cs with
      | nil =>
        rw [hrest] at ih'
        exact absurd rfl ih'
      | cons d r =>
        rw [hrest] at ih'
        by_cases hd : d = '-'
        · subst hd
          simp only [slugChars, hrest, hc]
          simpa using ih'
        · simp only [slugChars, hrest, hc]
          simp [List.dropWhile, hd]

/-- C7 counterexample: the Store named "!!!" has a non-empty name, yet the
pre-save hook assigns it the empty slug (the slugify transform strips every
character). -/
theorem slug_nonempty_cex :
    exStoreBang.name ≠ "" ∧ (preSave true exStoreBang []).slug = "" := by
  decide

/-- C7 (amended): for every Store whose name contains at least one
alphanumeric character, the slug produced by slug assignment is a non-empty
string. -/
theorem preSave_slug_nonempty (s : Store) (db : List Store)
    (h : ∃ c ∈ s.name.data, c.isAlphanum = true) :
    (preSave true s db).slug ≠ "" := by
  have hbase : slugify s.name ≠ "" := by
    unfold slugify
    intro he
    have hdata := congrArg String.data he
    obtain ⟨c, hc, hca⟩ := h
    have h' : ∃ d ∈ s.name.data.map lowerChar, d.isAlphanum = true := by
      refine ⟨lowerChar c, List.mem_map.mpr ⟨c, hc, rfl⟩, ?_⟩
      rw [isAlphanum_lowerChar]
      exact hca
    exact dropWhile_dash_slugChars_ne_nil _ h' (by simpa using hdata)
  rw [preSave_slug_eq]
  by_cases h0 : (storesWithSlug (slugify s.name) db).length = 0
  · simpa [h0] using hbase
  · rw [if_neg h0]
    intro he
    have hdata := congrArg String.data he
    rw [String.data_append, String.data_append] at hdata
    have h1 := (List.append_eq_nil.mp
      (List.append_eq_nil.mp hdata).1).1
    exact hbase (String.ext h1)

/-- Witness for C7 (amended): "Foo" contains the alphanumeric character F,
and the assigned slug "foo" is non-empty. -/
theorem preSave_slug_nonempty_witness :
    (preSave true exStoreNew []).slug ≠ "" :=
  preSave_slug_nonempty exStoreNew [] ⟨'F', by decide, by decide⟩

theorem lowerChar_out (c : Char) :
    lowerChar c = c ∨ lowerChar c ∈
      ['a', 'b', 'c', 'd', 'e', 'f', 'g', 'h', 'i', 'j', 'k', 'l', 'm',
       'n', 'o', 'p', 'q', 'r', 's', 't', 'u', 'v', 'w', 'x', 'y', 'z'] := by
  unfold lowerChar
  split
  all_goals first
    | exact Or.inl rfl
    | exact Or.inr (by decide)

theorem lowerChar_of_lower (d : Char)
    (hd : d ∈ ['a', 'b', 'c', 'd', 'e', 'f', 'g', 'h', 'i', 'j', 'k', 'l',
      'm', 'n', 'o', 'p', 'q', 'r', 's', 't', 'u', 'v', 'w', 'x', 'y',
      'z']) : lowerChar d = d := by
  fin_cases hd <;> rfl

theorem lowerChar_idem (c : Char) :
    lowerChar (lowerChar c) = lowerChar c := by
  rcases lowerChar_out c with h | h
  · rw [h]
    exact h
  · exact lowerChar_of_lower _ h

theorem slugChar_ne_dash (c : Char) (h : slugChar c = true) : c ≠ '-' := by
  intro he
  subst he
  exact absurd h (by decide)

theorem lowerChar_of_slugChar (c : Char) (h : slugChar c = true) :
    lowerChar c = c := by
  unfold slugChar at h
  rw [Bool.and_eq_true] at h
  exact of_decide_eq_true h.2

theorem isAlphanum_of_slugChar (c : Char) (h : slugChar c = true) :
    c.isAlphanum = true := by
  unfold slugChar at h
  rw [Bool.and_eq_true] at h
  exact h.1

theorem slugChars_cons_alnum (c : Char) (cs : List Char)
    (hc : c.isAlphanum = true) :
    slugChars (c :: cs) = c :: slugChars cs := by
  simp [slugChars, hc]

theorem slugChars_cons_sep_nil (c : Char) (cs : List Char)
    (hc : ¬ (c.isAlphanum = true)) (h : slugChars cs = []) :
    slugChars (c :: cs) = [] := by
  simp [slugChars, hc, h]

theorem slugChars_cons_sep_dash (c : Char) (cs : List Char) (r : List Char)
    (hc : ¬ (c.isAlphanum = true)) (h : slugChars cs = '-' :: r) :
    slugChars (c :: cs) = '-' :: r := by
  simp [slugChars, hc, h]

theorem slugChars_cons_sep_other (c d : Char) (cs r : List Char)
    (hc : ¬ (c.isAlphanum = true)) (h : slugChars cs = d :: r)
    (hd : ¬ (d = '-')) :
    slugChars (c :: cs) = '-' :: d :: r := by
  simp [slugChars, hc, h, hd]

theorem isSlugList_pair (c d : Char) (r : List Char) :
    isSlugList (c :: d :: r) =
      ((slugChar c || (c = '-' && slugChar d)) && isSlugList (d :: r)) := rfl

theorem slugChar_head (d : Char) (r : List Char)
    (h : isSlugList (d :: r) = true) (hd : d ≠ '-') : slugChar d = true := by
  cases r with
  | nil => exact h
  | cons e r' =>
    rw [isSlugList_pair, Bool.and_eq_true, Bool.or_eq_true] at h
    rcases h.1 with h1 | h1
    · exact h1
    · rw [Bool.and_eq_true] at h1
      exact absurd (of_decide_eq_true h1.1) hd

theorem slugChars_isSlugList (cs : List Char)
    (hlow : ∀ c ∈ cs, lowerChar c = c) :
    isSlugList (slugChars cs) = true := by
  induction cs with
  | nil => rfl
  | cons c cs ih =>
    have ih' := ih (fun x hx => hlow x (List.mem_cons_of_mem c hx))
    by_cases hc : c.isAlphanum = true
    · have hsc : slugChar c = true := by
        unfold slugChar
        rw [Bool.and_eq_true]
        exact ⟨hc, decide_eq_true (hlow c (List.mem_cons_self c cs))⟩
      rw [slugChars_cons_alnum c cs hc]
      cases hrest : slugChars cs with
      | nil => exact hsc
      | cons d r =>
        rw [hrest] at ih'
        rw [isSlugList_pair, Bool.and_eq_true, Bool.or_eq_true]
        exact ⟨Or.inl hsc, ih'⟩
    · cases hrest : slugChars cs with
      | nil => rw [slugChars_cons_sep_nil c cs hc hrest]; rfl
      | cons d r =>
        rw [hrest] at ih'
        by_cases hd : d = '-'
        · subst hd
          rw [slugChars_cons_sep_dash c cs r hc hrest]
          exact ih'
        · have hscd : slugChar d = true := slugChar_head d r ih' hd
          rw [slugChars_cons_sep_other c d cs r hc hrest hd]
          rw [isSlugList_pair, Bool.and_eq_true, Bool.or_eq_true]
          refine ⟨Or.inr ?_, ih'⟩
          rw [Bool.and_eq_true]
          exact ⟨by decide, hscd⟩

theorem slugChars_of_isSlugList (t : List Char)
    (h : isSlugList t = true) : slugChars t = t := by
  induction t with
  | nil => rfl
  | cons c t' ih =>
    cases t' with
    | nil =>
      have hc : c.isAlphanum = true := isAlphanum_of_slugChar c h
      rw [slugChars_cons_alnum c [] hc]
      rfl
    | cons d r =>
      rw [isSlugList_pair, Bool.and_eq_true, Bool.or_eq_true] at h
      have hrec : slugChars (d :: r) = d :: r := ih h.2
      rcases h.1 with h1 | h1
      · have hc : c.isAlphanum = true := isAlphanum_of_slugChar c h1
        rw [slugChars_cons_alnum c (d :: r) hc, hrec]
      · rw [Bool.and_eq_true] at h1
        have hcd : c = '-' := of_decide_eq_true h1.1
        have hdd : ¬ (d = '-') := slugChar_ne_dash d h1.2
        have hca : ¬ (c.isAlphanum = true) := by
          rw [hcd]
          decide
        rw [slugChars_cons_sep_other c d (d :: r) r hca hrec hdd, hcd]

theorem isSlugList_mem (t : List Char) (h : isSlugList t = true) :
    ∀ c ∈ t, slugChar c = true ∨ c = '-' := by
  induction t with
  | nil => intro c hc; cases hc
  | cons c t' ih =>
    intro x hx
    cases t' with
    | nil =>
      cases hx with
      | head => exact Or.inl h
      | tail _ hmem => cases hmem
    | cons d r =>
      rw [isSlugList_pair, Bool.and_eq_true, Bool.or_eq_true] at h
      cases hx with
      | head =>
        rcases h.1 with h1 | h1
        · exact Or.inl h1
        · rw [Bool.and_eq_true] at h1
          exact Or.inr (of_decide_eq_true h1.1)
      | tail _ hmem =>
        exact ih h.2 x hmem

theorem map_fixed_eq_self (f : Char → Char) :
    ∀ (l : List Char), (∀ c ∈ l, f c = c) → l.map f = l := by
  intro l
  induction l with
  | nil => intro; rfl
  | cons c cs ih =>
    intro h
    simp only [List.map_cons]
    rw [h c (List.mem_cons_self c cs),
      ih (fun x hx => h x (List.mem_cons_of_mem c hx))]

theorem dropWhile_dash_good (t : List Char) (h : isSlugList t = true) :
    isSlugList (t.dropWhile (· = '-')) = true ∧
    (∀ d r, t.dropWhile (· = '-') = d :: r → slugChar d = true) := by
  cases t with
  | nil =>
    refine ⟨rfl, ?_⟩
    intro d r hdr
    cases hdr
  | cons c t' =>
    by_cases hc : c = '-'
    · subst hc
      cases t' with
      | nil => exact absurd h (by decide)
      | cons d r' =>
        rw [isSlugList_pair, Bool.and_eq_true, Bool.or_eq_true] at h
        have hd : slugChar d = true := by
          rcases h.1 with h1 | h1
          · exact absurd h1 (by decide)
          · rw [Bool.and_eq_true] at h1
            exact h1.2
        have hdn : ¬ (d = '-') := slugChar_ne_dash d hd
        have hdrop : ('-' :: d :: r').dropWhile (· = '-') = d :: r' := by
          simp [List.dropWhile, hdn]
        rw [hdrop]
        refine ⟨h.2, ?_⟩
        intro e r hre
        rw [List.cons.injEq] at hre
        rw [← hre.1]
        exact hd
    · have hdrop : (c :: t').dropWhile (· = '-') = c :: t' := by
        simp [List.dropWhile, hc]
      rw [hdrop]
      refine ⟨h, ?_⟩
      intro d r hdr
      rw [List.cons.injEq] at hdr
      rw [← hdr.1]
      exact slugChar_head c t' h hc

/-- C9: the slugify transform is idempotent — slugifying an already
slugified string returns it unchanged. -/
theorem slugify_idempotent (s : String) :
    slugify (slugify s) = slugify s := by
  have hgood : isSlugList (slugChars (s.data.map lowerChar)) = true := by
    apply slugChars_isSlugList
    intro c hc
    rw [List.mem_map] at hc
    obtain ⟨c0, _, hc0⟩ := hc
    rw [← hc0]
    exact lowerChar_idem c0
  obtain ⟨hgood2, hhead⟩ :=
    dropWhile_dash_good (slugChars (s.data.map lowerChar)) hgood
  show slugify ⟨(slugChars (s.data.map lowerChar)).dropWhile (· = '-')⟩ = _
  unfold slugify
  apply String.ext
  show (slugChars ((((slugChars (s.data.map lowerChar)).dropWhile
      (· = '-')) : List Char).map lowerChar)).dropWhile (· = '-') = _
  rw [map_fixed_eq_self lowerChar _ ?fixed]
  case fixed =>
    intro c hc
    rcases isSlugList_mem _ hgood2 c hc with h1 | h1
    · exact lowerChar_of_slugChar c h1
    · rw [h1]
      rfl
  rw [slugChars_of_isSlugList _ hgood2]
  cases ht : (slugChars (s.data.map lowerChar)).dropWhile (· = '-') with
  | nil => rfl
  | cons d r =>
    have hd : slugChar d = true := hhead d r ht
    have hdn : ¬ (d = '-') := slugChar_ne_dash d hd
    simp [List.dropWhile, hdn]

theorem mem_insertDesc {α β : Type} [LinearOrder β] (key : α → β) (x a : α)
    (l : List α) : a ∈ insertDesc key x l ↔ a = x ∨ a ∈ l := by
  induction l with
  | nil => simp [insertDesc]
  | cons y ys ih =>
    by_cases h : key y < key x
    · simp [insertDesc, h]
    · simp [insertDesc, h, ih]
      tauto

theorem perm_insertDesc {α β : Type} [LinearOrder β] (key : α → β) (x : α)
    (l : List α) : List.Perm (insertDesc key x l) (x :: l) := by
  induction l with
  | nil => exact List.Perm.refl _
  | cons y ys ih =>
    by_cases h : key y < key x
    · simp only [insertDesc, if_pos h]
      exact List.Perm.refl _
    · simp only [insertDesc, if_neg h]
      exact (ih.cons y).trans (List.Perm.swap x y ys)

theorem perm_sortDesc {α β : Type} [LinearOrder β] (key : α → β)
    (l : List α) : List.Perm (sortDesc key l) l := by
  induction l with
  | nil => exact List.Perm.refl _
  | cons x xs ih =>
    exact (perm_insertDesc key x (sortDesc key xs)).trans (ih.cons x)

theorem length_sortDesc {α β : Type} [LinearOrder β] (key : α → β)
    (l : List α) : (sortDesc key l).length = l.length :=
  (perm_sortDesc key l).length_eq

theorem mem_sortDesc {α β : Type} [LinearOrder β] (key : α → β) (a : α)
    (l : List α) : a ∈ sortDesc key l ↔ a ∈ l :=
  (perm_sortDesc key l).mem_iff

theorem pairwise_insertDesc {α β : Type} [LinearOrder β] (key : α → β)
    (x : α) (l : List α)
    (h : List.Pairwise (fun a b => key b ≤ key a) l) :
    List.Pairwise (fun a b => key b ≤ key a) (insertDesc key x l) := by
  induction l with
  | nil => simp [insertDesc]
  | cons y ys ih =>
    rw [List.pairwise_cons] at h
    by_cases hlt : key y < key x
    · simp only [insertDesc, if_pos hlt]
      rw [List.pairwise_cons]
      refine ⟨?_, ?_⟩
      · intro z hz
        cases hz with
        | head => exact le_of_lt hlt
        | tail _ hmem => exact (h.1 z hmem).trans (le_of_lt hlt)
      · rw [List.pairwise_cons]
        exact ⟨h.1, h.2⟩
    · simp only [insertDesc, if_neg hlt]
      rw [List.pairwise_cons]
      refine ⟨?_, ih h.2⟩
      intro z hz
      rw [mem_insertDesc] at hz
      rcases hz with hz | hz
      · rw [hz]
        exact not_lt.mp hlt
      · exact h.1 z hz

theorem pairwise_sortDesc {α β : Type} [LinearOrder β] (key : α → β)
    (l : List α) :
    List.Pairwise (fun a b => key b ≤ key a) (sortDesc key l) := by
  induction l with
  | nil => exact List.Pairwise.nil
  | cons x xs ih => exact pairwise_insertDesc key x (sortDesc key xs) ih

theorem mem_distincts (l : List String) (a : String) :
    a ∈ distincts l ↔ a ∈ l := by
  induction l with
  | nil => simp [distincts]
  | cons t ts ih =>
    simp only [distincts, List.mem_cons, List.mem_filter, ih]
    by_cases ha : a = t
    · simp [ha]
    · simp [ha]

theorem nodup_distincts (l : List String) : (distincts l).Nodup := by
  induction l with
  | nil => exact List.nodup_nil
  | cons t ts ih =>
    rw [distincts, List.nodup_cons]
    refine ⟨?_, ih.filter _⟩
    intro hmem
    rw [List.mem_filter] at hmem
    simp at hmem

theorem hasSecondReview_iff (l : List Review) :
    hasSecondReview l = true ↔ 2 ≤ l.length := by
  cases l with
  | nil => simp [hasSecondReview]
  | cons a t =>
    cases t with
    | nil => simp [hasSecondReview]
    | cons b r =>
      simp only [hasSecondReview, List.length_cons, true_iff]
      omega

/-- C2 counterexample: on a single Store whose tags list is ["a", "a"],
`getTagsList` reports count 2 for tag "a" although only one Store references
it — the pipeline counts unwound tag occurrences, not referencing Stores. -/
theorem getTagsList_count_cex :
    getTagsList [exStoreTagsAA] = [("a", 2)] ∧
    storesReferencing "a" [exStoreTagsAA] = 1 := by decide

/-- C2 (amended): `getTagsList` yields one group per distinct tag value,
each group's count being the number of tag OCCURRENCES across all Stores (a
Store listing a tag twice contributes twice), ordered by count descending;
every occurring tag is covered. -/
theorem getTagsList_spec (stores : List Store) :
    List.Pairwise (fun a b => b.2 ≤ a.2) (getTagsList stores) ∧
    (∀ p ∈ getTagsList stores, p.2 = occCount p.1 stores) ∧
    ((getTagsList stores).map Prod.fst).Nodup ∧
    (∀ tag, (∃ c, (tag, c) ∈ getTagsList stores) ↔
      tag ∈ stores.flatMap (fun s => s.tags)) := by
  refine ⟨?_, ?_, ?_, ?_⟩
  · exact pairwise_sortDesc (fun p : String × Nat => p.2) _
  · intro p hp
    simp only [getTagsList] at hp
    rw [mem_sortDesc, List.mem_map] at hp
    obtain ⟨t, _, hpt⟩ := hp
    rw [← hpt]
    rfl
  · have hperm : List.Perm
        ((sortDesc (fun p : String × Nat => p.2)
          ((distincts (stores.flatMap (fun s => s.tags))).map
            (fun t => (t, (stores.flatMap (fun s => s.tags)).count t)))).map
          Prod.fst)
        (((distincts (stores.flatMap (fun s => s.tags))).map
          (fun t => (t, (stores.flatMap (fun s => s.tags)).count t))).map
          Prod.fst) :=
      (perm_sortDesc (fun p : String × Nat => p.2) _).map Prod.fst
    have heq : (((distincts (stores.flatMap (fun s => s.tags))).map
        (fun t => (t, (stores.flatMap (fun s => s.tags)).count t))).map
          Prod.fst) = distincts (stores.flatMap (fun s => s.tags)) := by
      rw [List.map_map]
      rw [show (Prod.fst ∘ fun t : String =>
        (t, (stores.flatMap (fun s => s.tags)).count t)) = id from rfl]
      exact List.map_id _
    refine hperm.nodup_iff.mpr ?_
    rw [heq]
    exact nodup_distincts _
  · intro tag
    constructor
    · rintro ⟨c, hc⟩
      simp only [getTagsList] at hc
      rw [mem_sortDesc, List.mem_map] at hc
      obtain ⟨t, ht, hpt⟩ := hc
      rw [Prod.mk.injEq] at hpt
      rw [← hpt.1]
      exact (mem_distincts _ t).mp ht
    · intro h
      refine ⟨(stores.flatMap (fun s => s.tags)).count tag, ?_⟩
      simp only [getTagsList]
      rw [mem_sortDesc, List.mem_map]
      exact ⟨tag, (mem_distincts _ tag).mpr h, rfl⟩

/-- Witness for C2 (amended): on Stores [{tags:[a,b]}, {tags:[b]}] the
output is exactly b with count 2 ranked above a with count 1. -/
theorem getTagsList_spec_witness :
    (2 : Nat) = occCount "b" [exStoreTagsAB, exStoreTagsB] ∧
    (∃ c, (("b" : String), c) ∈ getTagsList [exStoreTagsAB, exStoreTagsB]) ∧
    getTagsList [exStoreTagsAB, exStoreTagsB] = [("b", 2), ("a", 1)] := by
  refine ⟨?_, ?_, by decide⟩
  · exact (getTagsList_spec [exStoreTagsAB, exStoreTagsB]).2.1 ("b", 2)
      (by decide)
  · exact ((getTagsList_spec [exStoreTagsAB, exStoreTagsB]).2.2.2 "b").mpr
      (by decide)

/-- C5: `getTopStores` returns at most 10 entries, sorted descending by
`averageRating`; every entry is the projection (photo, name, reviews, slug,
average rating of the joined reviews) of a Store with at least two
associated Reviews; and when at most 10 Stores qualify, every qualifying
Store's projection appears. -/
theorem getTopStores_spec (stores : List Store) (reviews : List Review) :
    (getTopStores stores reviews).length ≤ 10 ∧
    List.Pairwise (fun a b => b.averageRating ≤ a.averageRating)
      (getTopStores stores reviews) ∧
    (∀ e ∈ getTopStores stores reviews, ∃ s ∈ stores,
        e = topProject reviews s ∧ 2 ≤ (reviewsOf reviews s).length ∧
        e.reviews = reviewsOf reviews s ∧
        e.averageRating = ratingAvg (e.reviews.map (fun r => r.rating)) ∧
        e.photo = s.photo ∧ e.name = s.name ∧ e.slug = s.slug) ∧
    ((stores.filter
        (fun s => hasSecondReview (reviewsOf reviews s))).length ≤ 10 →
      ∀ s ∈ stores, 2 ≤ (reviewsOf reviews s).length →
        topProject reviews s ∈ getTopStores stores reviews) := by
  refine ⟨?_, ?_, ?_, ?_⟩
  · exact List.length_take_le _ _
  · exact List.Pairwise.sublist (List.take_sublist _ _)
      (pairwise_sortDesc (fun e : TopStoreEntry => e.averageRating) _)
  · intro e he
    simp only [getTopStores] at he
    have he1 := List.mem_of_mem_take he
    rw [mem_sortDesc, List.mem_map] at he1
    obtain ⟨s, hs, hes⟩ := he1
    rw [List.mem_filter] at hs
    refine ⟨s, hs.1, hes.symm, (hasSecondReview_iff _).mp hs.2, ?_, ?_, ?_, ?_, ?_⟩
    · rw [← hes]
      rfl
    · rw [← hes]
      rfl
    · rw [← hes]
      rfl
    · rw [← hes]
      rfl
    · rw [← hes]
      rfl
  · intro hlen s hs h2
    simp only [getTopStores]
    have hmem : topProject reviews s ∈
        (stores.filter
          (fun s => hasSecondReview (reviewsOf reviews s))).map
          (topProject reviews) :=
      List.mem_map.mpr
        ⟨s, List.mem_filter.mpr ⟨hs, (hasSecondReview_iff _).mpr h2⟩, rfl⟩
    have hlen2 : (sortDesc (fun e => e.averageRating)
        ((stores.filter
          (fun s => hasSecondReview (reviewsOf reviews s))).map
          (topProject reviews))).length ≤ 10 := by
      rw [length_sortDesc, List.length_map]
      exact hlen
    rw [List.take_of_length_le hlen2, mem_sortDesc]
    exact hmem

/-- Witness for C5: store X, which has two reviews, appears in the result
computed over stores X, Y, Z; the length bound and the descending order
hold there as well. -/
theorem getTopStores_spec_witness :
    (getTopStores [exStoreX, exStoreY, exStoreZ] exReviews).length ≤ 10 ∧
    List.Pairwise (fun a b => b.averageRating ≤ a.averageRating)
      (getTopStores [exStoreX, exStoreY, exStoreZ] exReviews) ∧
    topProject exReviews exStoreX ∈
      getTopStores [exStoreX, exStoreY, exStoreZ] exReviews := by
  refine ⟨(getTopStores_spec [exStoreX, exStoreY, exStoreZ] exReviews).1,
    (getTopStores_spec [exStoreX, exStoreY, exStoreZ] exReviews).2.1, ?_⟩
  exact (getTopStores_spec [exStoreX, exStoreY, exStoreZ] exReviews).2.2.2
    (by decide) exStoreX (by decide) (by decide)

end StoreApp
